import Mathlib

/-!
Verification of the markdown-to-Google-Docs compiler in
`plugins/productivity-suite/skills/google-docs/scripts/docs_client.py`.

The Python code is shallowly embedded: strings become `List Char`, the
dict-shaped API requests become the tagged type `Request`, the converter
object (`self.index`, `self.requests`, `self.pending_tables`) becomes the
record `ConvState`, and each method becomes an executable Lean function of
the same name (in lowerCamelCase).  Python's `re` uses on the three line
regexes are translated by their backtracking semantics on the concrete
patterns.  The two-phase table materializer `insert_tables` is embedded
with the host's snapshot responses passed in as explicit data.
-/

namespace DocsClient

abbrev Chars := List Char

/-- Python's `\s` / `str.strip` whitespace on the ASCII range. -/
def isPySpace (c : Char) : Bool :=
  c == ' ' || c == '\t' || c == '\n' || c == '\r' || c == '\x0b' || c == '\x0c'

/-- Characters allowed in a table separator row cell: the class `[\s\-:]`. -/
def isSepChar (c : Char) : Bool :=
  isPySpace c || c == '-' || c == ':'

/-- Python `str.lstrip()`. -/
def lstrip (l : Chars) : Chars := l.dropWhile isPySpace

/-- Python `str.rstrip()`. -/
def rstrip (l : Chars) : Chars := (l.reverse.dropWhile isPySpace).reverse

/-- Python `str.strip()`. -/
def pyStrip (l : Chars) : Chars := rstrip (lstrip l)

/-- Python `str.split(sep)` for a one-character separator. -/
def splitOnChar (sep : Char) : Chars → List Chars
  | [] => [[]]
  | c :: rest =>
    match splitOnChar sep rest with
    | [] => [[]]
    | l :: ls => if c == sep then [] :: l :: ls else (c :: l) :: ls

/-- Python `'\n'.join(lines)`. -/
def joinNL : List Chars → Chars
  | [] => []
  | [l] => l
  | l :: ls => l ++ '\n' :: joinNL ls

/-- The `textStyle` payloads that `_parse_inline_formatting`, `_add_code_block`
and friends produce. -/
inductive TextStyleTag
  | bold
  | italic
  | courierNew
  | codeBlockFont
deriving DecidableEq

/-- The `paragraphStyle` payloads. -/
inductive ParaStyleTag
  | namedStyle (name : String)
  | indentStart (magnitudePt : Nat)
  | shadingLightGray
deriving DecidableEq

/-- The `bulletPreset` payloads. -/
inductive BulletPreset
  | discCircleSquare
  | numberedDecimalAlphaRoman
deriving DecidableEq

/-- One Google Docs batch-update request as built by `MarkdownToDocsConverter`. -/
inductive Request
  | insertText (index : Nat) (text : Chars)
  | updateParagraphStyle (startIndex endIndex : Nat) (style : ParaStyleTag)
  | updateTextStyle (startIndex endIndex : Nat) (style : TextStyleTag)
  | createParagraphBullets (startIndex endIndex : Nat) (preset : BulletPreset)
deriving DecidableEq

/-- A format span of `_parse_inline_formatting`: offsets are relative to the
returned clean text, `stop` exclusive. -/
structure FormatSpan where
  start : Nat
  stop : Nat
  style : TextStyleTag
deriving DecidableEq

/-- `text.find('**', k)` as a split of the suffix starting at `k`:
returns the characters before the first `**` occurrence and those after it. -/
def splitDoubleStar : Chars → Option (Chars × Chars)
  | [] => none
  | '*' :: '*' :: rest => some ([], rest)
  | c :: rest =>
    match splitDoubleStar rest with
    | none => none
    | some (pre, post) => some (c :: pre, post)

/-- `text.find(target, k)` as a split of the suffix starting at `k`. -/
def splitAtChar (target : Char) : Chars → Option (Chars × Chars)
  | [] => none
  | c :: rest =>
    if c == target then some ([], rest)
    else
      match splitAtChar target rest with
      | none => none
      | some (pre, post) => some (c :: pre, post)

/-- The scanning loop of `_parse_inline_formatting`.  `prev` is
`text[i-1]` (`none` at `i = 0`); `text` is the suffix from the scan
position `i`; `res`/`spans` are the accumulated clean text and spans.
`fuel` bounds the number of loop iterations; every iteration consumes at
least one input character, so the initial `text.length` is always enough. -/
def parseInlineAux : Nat → Option Char → Chars → Chars → List FormatSpan →
    Chars × List FormatSpan
  | 0, _, _, res, spans => (res, spans)
  | fuel + 1, prev, text, res, spans =>
    match text with
    | [] => (res, spans)
    | c :: rest =>
      if c == '*' && rest.head? == some '*' then
        match splitDoubleStar rest.tail with
        | some (content, after) =>
          parseInlineAux fuel (some '*') after (res ++ content)
            (spans ++ [⟨res.length, res.length + content.length, TextStyleTag.bold⟩])
        | none => parseInlineAux fuel (some c) rest (res ++ [c]) spans
      else if c == '*' && !(prev == some '*') &&
          (match rest.head? with | some c2 => !(c2 == '*') | none => false) then
        match splitAtChar '*' rest with
        | some (content, after) =>
          if !(after.head? == some '*') then
            parseInlineAux fuel (some '*') after (res ++ content)
              (spans ++ [⟨res.length, res.length + content.length, TextStyleTag.italic⟩])
          else parseInlineAux fuel (some c) rest (res ++ [c]) spans
        | none => parseInlineAux fuel (some c) rest (res ++ [c]) spans
      else if c == '`' then
        match splitAtChar '`' rest with
        | some (content, after) =>
          parseInlineAux fuel (some '`') after (res ++ content)
            (spans ++ [⟨res.length, res.length + content.length, TextStyleTag.courierNew⟩])
        | none => parseInlineAux fuel (some c) rest (res ++ [c]) spans
      else parseInlineAux fuel (some c) rest (res ++ [c]) spans

/-- `_parse_inline_formatting(text) -> (clean_text, format_spans)`. -/
def parseInlineFormatting (text : Chars) : Chars × List FormatSpan :=
  parseInlineAux text.length none text [] []

/-- The mutable fields of a `MarkdownToDocsConverter` instance. -/
structure ConvState where
  index : Nat
  requests : List Request
  pendingTables : List (List (List Chars))
deriving DecidableEq

/-- The state of a freshly constructed `MarkdownToDocsConverter`. -/
def initState : ConvState := { index := 1, requests := [], pendingTables := [] }

/-- `_add_text`: append an `insertText` at the cursor, advance the cursor by
the text's length, return the new state with `(start, end)`. -/
def addText (st : ConvState) (text : Chars) : ConvState × Nat × Nat :=
  ({ index := st.index + text.length
     requests := st.requests ++ [Request.insertText st.index text]
     pendingTables := st.pendingTables },
   st.index, st.index + text.length)

/-- `_add_heading`. -/
def addHeading (st : ConvState) (text : Chars) (style : String) : ConvState :=
  let r := addText st (text ++ ['\n'])
  { r.1 with requests := r.1.requests ++
      [Request.updateParagraphStyle r.2.1 r.2.2 (ParaStyleTag.namedStyle style)] }

/-- The `updateTextStyle` requests emitted for a list of relative spans at an
absolute insertion start offset. -/
def spanRequests (start : Nat) (spans : List FormatSpan) : List Request :=
  spans.map fun sp => Request.updateTextStyle (start + sp.start) (start + sp.stop) sp.style

/-- `_add_paragraph`. -/
def addParagraph (st : ConvState) (text : Chars) : ConvState :=
  let p := parseInlineFormatting text
  let r := addText st (p.1 ++ ['\n'])
  { r.1 with requests := r.1.requests ++ spanRequests r.2.1 p.2 }

/-- `_add_bullet`. -/
def addBullet (st : ConvState) (text : Chars) (nestingLevel : Nat) : ConvState :=
  let p := parseInlineFormatting text
  let r := addText st (p.1 ++ ['\n'])
  { r.1 with requests := r.1.requests ++
      [Request.createParagraphBullets r.2.1 r.2.2 BulletPreset.discCircleSquare] ++
      (if nestingLevel > 0 then
        [Request.updateParagraphStyle r.2.1 r.2.2 (ParaStyleTag.indentStart (36 * nestingLevel))]
      else []) ++
      spanRequests r.2.1 p.2 }

/-- `_add_numbered`. -/
def addNumbered (st : ConvState) (text : Chars) (nestingLevel : Nat) : ConvState :=
  let p := parseInlineFormatting text
  let r := addText st (p.1 ++ ['\n'])
  { r.1 with requests := r.1.requests ++
      [Request.createParagraphBullets r.2.1 r.2.2 BulletPreset.numberedDecimalAlphaRoman] ++
      (if nestingLevel > 0 then
        [Request.updateParagraphStyle r.2.1 r.2.2 (ParaStyleTag.indentStart (36 * nestingLevel))]
      else []) ++
      spanRequests r.2.1 p.2 }

/-- `_add_code_block`. -/
def addCodeBlock (st : ConvState) (lines : List Chars) : ConvState :=
  let r := addText st (joinNL lines ++ ['\n'])
  { r.1 with requests := r.1.requests ++
      [Request.updateTextStyle r.2.1 r.2.2 TextStyleTag.codeBlockFont,
       Request.updateParagraphStyle r.2.1 r.2.2 ParaStyleTag.shadingLightGray] }

/-- `_add_table`: register the rows as a pending table and insert the
placeholder text. -/
def addTable (st : ConvState) (rows : List (List Chars)) : ConvState :=
  if rows.isEmpty then st
  else
    let st' := { st with pendingTables := st.pendingTables ++ [rows] }
    (addText st' ("[TABLE]\n".data)).1

/-- `_add_horizontal_rule`. -/
def addHorizontalRule (st : ConvState) : ConvState :=
  (addText st ("---\n".data)).1

/-- `get_pending_tables`. -/
def getPendingTables (st : ConvState) : List (List (List Chars)) :=
  st.pendingTables

/-- The condition `line.strip().startswith('```')`. -/
def fenceCond (line : Chars) : Bool :=
  "```".data.isPrefixOf (pyStrip line)

/-- The condition `'|' in line and line.strip().startswith('|')`. -/
def pipeCond (line : Chars) : Bool :=
  line.contains '|' && ((pyStrip line).head? == some '|')

/-- `re.match(r'^\|[\s\-:]+\|', s)` as a boolean: the pattern's character
class excludes `|`, so the greedy run is deterministic. -/
def sepRowCond (s : Chars) : Bool :=
  match s with
  | '|' :: t => !(t.takeWhile isSepChar).isEmpty && ((t.dropWhile isSepChar).head? == some '|')
  | _ => false

/-- `[c.strip() for c in line.split('|')[1:-1]]`. -/
def parseCells (line : Chars) : List Chars :=
  (((splitOnChar '|' line).drop 1).dropLast).map pyStrip

/-- `line.strip() in ['---', '***', '___']`. -/
def hrCond (line : Chars) : Bool :=
  pyStrip line == "---".data || pyStrip line == "***".data || pyStrip line == "___".data

/-- Whether a list of characters starts with a Python-whitespace character. -/
def headIsSpace (l : Chars) : Bool :=
  match l.head? with
  | some c => isPySpace c
  | none => false

/-- The group-2 capture of `\s+(.+)` applied to the text after a list marker,
with Python's backtracking: the greedy `\s+` gives one character back when
`.+` would otherwise be empty (`.` matches whitespace other than newline). -/
def groupAfterSpaces (t : Chars) : Option Chars :=
  if (t.takeWhile isPySpace).isEmpty then none
  else
    match t.dropWhile isPySpace with
    | r :: rs => some (r :: rs)
    | [] =>
      if t.length ≥ 2 then
        match t.getLast? with
        | some c => some [c]
        | none => none
      else none

/-- The branch condition `re.match(r'^(\s*)[-*]\s+', line)`. -/
def bulletCond (line : Chars) : Bool :=
  match line.dropWhile isPySpace with
  | m :: t => (m == '-' || m == '*') && headIsSpace t
  | [] => false

/-- `re.match(r'^(\s*)[-*]\s+(.+)', line)`, returning
`(len(group(1)) // 2, group(2))`. -/
def bulletMatch (line : Chars) : Option (Nat × Chars) :=
  match line.dropWhile isPySpace with
  | m :: t =>
    if m == '-' || m == '*' then
      (groupAfterSpaces t).map fun g => ((line.takeWhile isPySpace).length / 2, g)
    else none
  | [] => none

/-- The branch condition `re.match(r'^(\s*)\d+\.\s+', line)`. -/
def numberedCond (line : Chars) : Bool :=
  let rest := line.dropWhile isPySpace
  !(rest.takeWhile Char.isDigit).isEmpty &&
    (match rest.dropWhile Char.isDigit with
     | '.' :: t => headIsSpace t
     | _ => false)

/-- `re.match(r'^(\s*)\d+\.\s+(.+)', line)`, returning
`(len(group(1)) // 2, group(2))`.  The written ordinal `\d+` is matched but
not captured by the source. -/
def numberedMatch (line : Chars) : Option (Nat × Chars) :=
  let rest := line.dropWhile isPySpace
  if (rest.takeWhile Char.isDigit).isEmpty then none
  else
    match rest.dropWhile Char.isDigit with
    | '.' :: t =>
      (groupAfterSpaces t).map fun g => ((line.takeWhile isPySpace).length / 2, g)
    | _ => none

/-- The heading / horizontal-rule / bullet / numbered / paragraph `elif`
chain of `convert`, applied to one line. -/
def processLine (st : ConvState) (line : Chars) : ConvState :=
  if "#### ".data.isPrefixOf line then addHeading st (pyStrip (line.drop 5)) "HEADING_4"
  else if "### ".data.isPrefixOf line then addHeading st (pyStrip (line.drop 4)) "HEADING_3"
  else if "## ".data.isPrefixOf line then addHeading st (pyStrip (line.drop 3)) "HEADING_2"
  else if "# ".data.isPrefixOf line then addHeading st (pyStrip (line.drop 2)) "HEADING_1"
  else if hrCond line then addHorizontalRule st
  else if bulletCond line then
    match bulletMatch line with
    | some g => addBullet st g.2 g.1
    | none => st
  else if numberedCond line then
    match numberedMatch line with
    | some g => addNumbered st g.2 g.1
    | none => st
  else if (pyStrip line).isEmpty then st
  else addParagraph st (pyStrip line)

/-- The `while i < len(lines)` loop of `convert`, including the
flush-remaining-table step after the loop.  Arguments mirror the local
variables `in_code_block`, `code_lines`, `in_table`, `table_rows`. -/
def convertLines : List Chars → Bool → List Chars → Bool → List (List Chars) →
    ConvState → ConvState
  | [], _, _, inTable, tableRows, st =>
    if inTable && !tableRows.isEmpty then addTable st tableRows else st
  | line :: rest, inCodeBlock, codeLines, inTable, tableRows, st =>
    if fenceCond line then
      if inCodeBlock then
        convertLines rest false [] inTable tableRows (addCodeBlock st codeLines)
      else convertLines rest true codeLines inTable tableRows st
    else if inCodeBlock then
      convertLines rest true (codeLines ++ [line]) inTable tableRows st
    else if pipeCond line then
      if sepRowCond (pyStrip line) then
        convertLines rest false codeLines inTable tableRows st
      else if (parseCells line).isEmpty then
        convertLines rest false codeLines inTable tableRows st
      else
        convertLines rest false codeLines true
          ((if inTable then tableRows else []) ++ [parseCells line]) st
    else if inTable then
      convertLines rest inCodeBlock codeLines false []
        (processLine (addTable st tableRows) line)
    else
      convertLines rest inCodeBlock codeLines inTable tableRows (processLine st line)

/-- `convert`: reset the cursor and the request list (but not
`pending_tables`), then run the line loop on `markdown.split('\n')`. -/
def convert (st : ConvState) (markdown : Chars) : ConvState :=
  convertLines (splitOnChar '\n' markdown) false [] false []
    { st with index := 1, requests := [] }

/-- The request list `convert` returns on a fresh converter instance. -/
def convertRequests (markdown : Chars) : List Request :=
  (convert initState markdown).requests

/-- A structural element of a fetched document snapshot, reduced to the
fields `insert_tables` reads: `startIndex` and `endIndex`. -/
structure SElem where
  startIndex : Nat
  endIndex : Nat
deriving DecidableEq

/-- A snapshot table cell: its `content` list of structural elements. -/
structure CellSnap where
  content : List SElem
deriving DecidableEq

/-- A snapshot table row: its `tableCells`. -/
structure RowSnap where
  tableCells : List CellSnap
deriving DecidableEq

/-- A snapshot table: its `tableRows`. -/
structure TableSnap where
  tableRows : List RowSnap
deriving DecidableEq

/-- One element of `doc['body']['content']`: either a table element or
some other element (paragraph etc.), which `insert_tables` ignores. -/
abbrev Body := List (Option TableSnap)

/-- `for element in reversed(body): if 'table' in element: ...`, taking the
first hit: the last table element of the document body. -/
def findLastTable (body : Body) : Option TableSnap :=
  body.reverse.findSome? id

/-- `max(len(row) for row in table_rows) if table_rows else 0`. -/
def maxRowLen (tableRows : List (List Chars)) : Nat :=
  tableRows.foldr (fun r m => Nat.max r.length m) 0

/-- Phase 1 of `insert_tables` for one table: the `insertTable` structural
request's `(rows, columns)`, or `none` when the `continue` guard
`num_rows == 0 or num_cols == 0` skips the table entirely. -/
def structuralInsert (tableRows : List (List Chars)) : Option (Nat × Nat) :=
  let numRows := tableRows.length
  let numCols := maxRowLen tableRows
  if numRows = 0 ∨ numCols = 0 then none else some (numRows, numCols)

/-- Phase 3 cell scan for the cells of one snapshot row, walked in lockstep
with the table's data cells: a cell gets an `insertText` at its first content
element's `startIndex` when the data cell exists, is non-empty text, and the
snapshot cell has content.  Snapshot cells beyond the data row produce
nothing (the `col_idx < len(table_rows[row_idx])` bound). -/
def cellReqsCells : List CellSnap → List Chars → List (Nat × Chars)
  | [], _ => []
  | _ :: _, [] => []
  | cell :: cells, txt :: txts =>
    (match cell.content with
     | [] => []
     | e :: _ => if txt.isEmpty then [] else [(e.startIndex, txt)]) ++
    cellReqsCells cells txts

/-- Phase 3 row scan, in lockstep with the data rows (the
`row_idx < len(table_rows)` bound). -/
def cellReqsRows : List RowSnap → List (List Chars) → List (Nat × Chars)
  | [], _ => []
  | _ :: _, [] => []
  | row :: rows, rd :: rds => cellReqsCells row.tableCells rd ++ cellReqsRows rows rds

/-- Phase 3 of `insert_tables` for one table: the cell-content `insertText`
requests in snapshot (row-major, ascending) order, before the final
`list(reversed(...))`. -/
def cellRequests (t : TableSnap) (data : List (List Chars)) : List (Nat × Chars) :=
  cellReqsRows t.tableRows data

/-- Phase 4 scan of the header row's cells: a bold `updateTextStyle` over
`(startIndex, endIndex - 1)` for each header cell whose first content
element spans more than the implicit paragraph break. -/
def boldReqsCells : List CellSnap → List (Nat × Nat)
  | [] => []
  | cell :: cells =>
    (match cell.content with
     | [] => []
     | e :: _ =>
       if e.startIndex + 1 < e.endIndex then [(e.startIndex, e.endIndex - 1)] else []) ++
    boldReqsCells cells

/-- Phase 4 of `insert_tables` for one table: the header-bold requests
computed from the post-content snapshot. -/
def boldRequests (body : Body) : List (Nat × Nat) :=
  match findLastTable body with
  | none => []
  | some t =>
    match t.tableRows with
    | [] => []
    | firstRow :: _ => boldReqsCells firstRow.tableCells

/-- What `insert_tables` does with one pending table. -/
inductive TableOutcome
  | skippedEmpty
  | abandoned
  | materialized (contentOps : List (Nat × Chars)) (boldOps : List (Nat × Nat))
deriving DecidableEq

/-- The per-table body of the `for table_rows in tables` loop of
`insert_tables`.  `snap1` is the snapshot the host returns after the
structural insert, `snap2` the one after the content commit.  When the
structural-insert guard skips the table no host call is made; when no table
element is found in `snap1` the table is abandoned with a warning
(`continue`); otherwise the content requests are applied in reversed
(descending) order and the header-bold requests follow. -/
def processPendingTable (data : List (List Chars)) (snap1 snap2 : Body) : TableOutcome :=
  match structuralInsert data with
  | none => TableOutcome.skippedEmpty
  | some _ =>
    match findLastTable snap1 with
    | none => TableOutcome.abandoned
    | some te => TableOutcome.materialized ((cellRequests te data).reverse) (boldRequests snap2)

/-- The whole `insert_tables` loop over a batch of pending tables, each
paired with the two snapshots the host serves for it. -/
def insertTables (batch : List (List (List Chars) × Body × Body)) : List TableOutcome :=
  batch.map fun x => processPendingTable x.1 x.2.1 x.2.2

/-- Well-formed span list: each span starts no earlier than `lo`, is
non-decreasing, and the chain ends by `hi`; encodes both containment in
`[lo, hi]` and mutual non-overlap in order. -/
def SpansOK : Nat → Nat → List FormatSpan → Prop
  | lo, hi, [] => lo ≤ hi
  | lo, hi, s :: rest => lo ≤ s.start ∧ s.start ≤ s.stop ∧ SpansOK s.stop hi rest

/-- Total length of the `text` fields of the `insertText` requests in a
request list. -/
def insertedLen : List Request → Nat
  | [] => 0
  | Request.insertText _ t :: rs => t.length + insertedLen rs
  | _ :: rs => insertedLen rs

/-- The claim-side reading of the separator-row rule: every trimmed cell of
the line consists solely of `-`, `:` and whitespace. -/
def allCellsSepOnly (line : Chars) : Bool :=
  (parseCells line).all fun cell => cell.all isSepChar

/-- The flattened row-major list of first-content `startIndex` offsets of
the content-bearing cells of one snapshot row. -/
def snapStartsCells : List CellSnap → List Nat
  | [] => []
  | cell :: cells =>
    (match cell.content with
     | [] => []
     | e :: _ => [e.startIndex]) ++ snapStartsCells cells

/-- The flattened row-major list of first-content `startIndex` offsets of
the content-bearing cells of a snapshot table. -/
def snapStarts (t : TableSnap) : List Nat :=
  t.tableRows.foldr (fun r acc => snapStartsCells r.tableCells ++ acc) []

/-- The cursor invariant: the converter's index equals 1 plus the total
inserted-text length of the requests accumulated so far. -/
def CursorInv (st : ConvState) : Prop :=
  st.index = 1 + insertedLen st.requests

theorem spansOK_le {l : List FormatSpan} :
    ∀ {lo hi}, SpansOK lo hi l → lo ≤ hi := by
  induction l with
  | nil => intro lo hi h; exact h
  | cons s rest ih =>
    intro lo hi h
    obtain ⟨h1, h2, h3⟩ := h
    exact le_trans h1 (le_trans h2 (ih h3))

theorem spansOK_mono {l : List FormatSpan} :
    ∀ {lo hi hi'}, SpansOK lo hi l → hi ≤ hi' → SpansOK lo hi' l := by
  induction l with
  | nil => intro lo hi hi' h hle; exact le_trans h hle
  | cons s rest ih =>
    intro lo hi hi' h hle
    exact ⟨h.1, h.2.1, ih h.2.2 hle⟩

theorem spansOK_snoc (sty : TextStyleTag) :
    ∀ (l : List FormatSpan) (lo m m' : Nat), SpansOK lo m l → m ≤ m' →
      SpansOK lo m' (l ++ [⟨m, m', sty⟩]) := by
  intro l
  induction l with
  | nil => intro lo m m' h hle; exact ⟨h, hle, le_refl _⟩
  | cons s rest ih =>
    intro lo m m' h hle
    exact ⟨h.1, h.2.1, ih _ _ _ h.2.2 hle⟩

theorem spansOK_mem {l : List FormatSpan} :
    ∀ {lo hi}, SpansOK lo hi l →
      ∀ sp ∈ l, lo ≤ sp.start ∧ sp.start ≤ sp.stop ∧ sp.stop ≤ hi := by
  induction l with
  | nil => intro lo hi _ sp hsp; cases hsp
  | cons s rest ih =>
    intro lo hi h sp hsp
    obtain ⟨h1, h2, h3⟩ := h
    rcases List.mem_cons.1 hsp with rfl | hmem
    · exact ⟨h1, h2, spansOK_le h3⟩
    · have := ih h3 sp hmem
      exact ⟨le_trans h1 (le_trans h2 this.1), this.2.1, this.2.2⟩

theorem spansOK_pairwise {l : List FormatSpan} :
    ∀ {lo hi}, SpansOK lo hi l → l.Pairwise fun a b => a.stop ≤ b.start := by
  induction l with
  | nil => intro lo hi _; exact List.Pairwise.nil
  | cons s rest ih =>
    intro lo hi h
    obtain ⟨_, _, h3⟩ := h
    exact List.Pairwise.cons (fun b hb => (spansOK_mem h3 b hb).1) (ih h3)

theorem parseInlineAux_spansOK :
    ∀ (fuel : Nat) (prev : Option Char) (text res : Chars)
      (spans : List FormatSpan) (lo : Nat),
      SpansOK lo res.length spans →
      SpansOK lo (parseInlineAux fuel prev text res spans).1.length
        (parseInlineAux fuel prev text res spans).2 := by
  intro fuel
  induction fuel with
  | zero => intro prev text res spans lo h; exact h
  | succ n ih =>
    intro prev text res spans lo h
    cases text with
    | nil => exact h
    | cons c rest =>
      simp only [parseInlineAux]
      split
      · rcases hsd : splitDoubleStar rest.tail with _ | ⟨content, after⟩
        · simp only [hsd]
          exact ih _ _ _ _ _ (spansOK_mono h (by simp))
        · simp only [hsd]
          refine ih _ _ _ _ _ ?_
          have hs := spansOK_snoc TextStyleTag.bold spans lo res.length
            (res.length + content.length) h (Nat.le_add_right _ _)
          simpa using hs
      · split
        · rcases hsc : splitAtChar '*' rest with _ | ⟨content, after⟩
          · simp only [hsc]
            exact ih _ _ _ _ _ (spansOK_mono h (by simp))
          · simp only [hsc]
            split
            · refine ih _ _ _ _ _ ?_
              have hs := spansOK_snoc TextStyleTag.italic spans lo res.length
                (res.length + content.length) h (Nat.le_add_right _ _)
              simpa using hs
            · exact ih _ _ _ _ _ (spansOK_mono h (by simp))
        · split
          · rcases hsc : splitAtChar '`' rest with _ | ⟨content, after⟩
            · simp only [hsc]
              exact ih _ _ _ _ _ (spansOK_mono h (by simp))
            · simp only [hsc]
              refine ih _ _ _ _ _ ?_
              have hs := spansOK_snoc TextStyleTag.courierNew spans lo res.length
                (res.length + content.length) h (Nat.le_add_right _ _)
              simpa using hs
          · exact ih _ _ _ _ _ (spansOK_mono h (by simp))

/-- C3 (amended): every span the inline formatter returns satisfies
`0 ≤ start ≤ stop ≤ len(cleanText)` (strictness `start < stop` fails for
empty delimiter pairs such as `****`), and the returned spans are mutually
non-overlapping: in emission order each span ends no later than the next
begins. -/
theorem inline_spans_amended (text : Chars) :
    (∀ sp ∈ (parseInlineFormatting text).2,
      sp.start ≤ sp.stop ∧ sp.stop ≤ (parseInlineFormatting text).1.length) ∧
    (parseInlineFormatting text).2.Pairwise (fun a b => a.stop ≤ b.start) := by
  have h := parseInlineAux_spansOK text.length none text [] [] 0 (Nat.le_refl 0)
  constructor
  · intro sp hsp
    have hm := spansOK_mem h sp hsp
    exact ⟨hm.2.1, hm.2.2⟩
  · exact spansOK_pairwise h

/-- C2: the claim says an unterminated code fence is recovered by flushing
the buffered lines as one CodeBlock at end of input.  The code drops them:
on `"```\nhello"` (fence never closed) `convert` returns no requests at all
and leaves the converter in its initial state — the buffered line `hello`
is silently lost, contradicting the spec's flush-at-EOF recovery. -/
theorem unterminated_fence_drops_code :
    convertRequests ("```\nhello".data) = [] ∧
    convert initState ("```\nhello".data) = initState := ⟨rfl, rfl⟩

/-- C3 counterexample: on `"****"` the inline formatter returns the empty
clean text and one bold span with `start = stop = 0`, so the claimed strict
inequality `start < stop` fails for a returned span. -/
theorem inline_span_strictness_counterexample :
    ¬ (∀ sp ∈ (parseInlineFormatting ("****".data)).2,
        sp.start < sp.stop ∧
        sp.stop ≤ (parseInlineFormatting ("****".data)).1.length) := by decide

/-- C6 counterexample: the lines `1. a` and `7. a` carry different written
ordinals, yet `convert` emits exactly the same requests for both — a plain
`NUMBERED_DECIMAL_ALPHA_ROMAN` bullet with no trace of the ordinal — so the
emitted operations do not depend on (or record) the literal written
number. -/
theorem numbered_ordinal_counterexample :
    convertRequests ("1. a".data) = convertRequests ("7. a".data) ∧
    convertRequests ("7. a".data) =
      [Request.insertText 1 ("a\n".data),
       Request.createParagraphBullets 1 3 BulletPreset.numberedDecimalAlphaRoman] :=
  ⟨rfl, rfl⟩

/-- C7 counterexample: the line `|-|A|` has the cell `A`, which does not
consist solely of `-`, `:` and whitespace, yet the parser's separator
regex matches it (the regex only anchors a prefix), so the line is skipped:
converting `"|-|A|\n|x|y|"` registers only the row `[x, y]`.  The claimed
"if and only if every cell is separator-like" is false. -/
theorem separator_row_counterexample :
    sepRowCond (pyStrip ("|-|A|".data)) = true ∧
    allCellsSepOnly ("|-|A|".data) = false ∧
    getPendingTables (convert initState ("|-|A|\n|x|y|".data)) =
      [[["x".data, "y".data]]] := by
  refine ⟨rfl, rfl, rfl⟩

/-- C8 counterexample: on `"# Title\nHello **world**\n"` the second
insertion is at index 7 (the cursor after `Title\n`, which spans 1..6), not
index 8, and the bold range is 13..18, not 14..19; the claimed request list
is not what `convert` produces. -/
theorem scenario_a_counterexample :
    convertRequests ("# Title\nHello **world**\n".data) ≠
      [Request.insertText 1 ("Title\n".data),
       Request.updateParagraphStyle 1 7 (ParaStyleTag.namedStyle "HEADING_1"),
       Request.insertText 8 ("Hello world\n".data),
       Request.updateTextStyle 14 19 TextStyleTag.bold] := by decide

/-- C8 (amended): `convert "# Title\nHello **world**\n"` produces exactly
`InsertText("Title\n")` at index 1, a HEADING_1 paragraph style over
range 1..7, `InsertText("Hello world\n")` at index 7, and a bold text style
over the absolute offsets 13..18 of `world`, and no other operations. -/
theorem scenario_a_amended :
    convertRequests ("# Title\nHello **world**\n".data) =
      [Request.insertText 1 ("Title\n".data),
       Request.updateParagraphStyle 1 7 (ParaStyleTag.namedStyle "HEADING_1"),
       Request.insertText 7 ("Hello world\n".data),
       Request.updateTextStyle 13 18 TextStyleTag.bold] := rfl

theorem cellReqsCells_sublist :
    ∀ (cells : List CellSnap) (txts : List Chars),
      ((cellReqsCells cells txts).map Prod.fst).Sublist (snapStartsCells cells) := by
  intro cells
  induction cells with
  | nil => intro txts; simp [cellReqsCells, snapStartsCells]
  | cons cell cs ih =>
    intro txts
    cases txts with
    | nil =>
      simp only [cellReqsCells, List.map_nil]
      exact List.nil_sublist _
    | cons t ts =>
      simp only [cellReqsCells, snapStartsCells, List.map_append]
      refine List.Sublist.append ?_ (ih ts)
      cases hc : cell.content with
      | nil => simp
      | cons e es =>
        by_cases ht : t.isEmpty <;> simp [ht]

theorem cellReqsRows_sublist :
    ∀ (rows : List RowSnap) (data : List (List Chars)),
      ((cellReqsRows rows data).map Prod.fst).Sublist
        (rows.foldr (fun r acc => snapStartsCells r.tableCells ++ acc) []) := by
  intro rows
  induction rows with
  | nil => intro data; simp [cellReqsRows]
  | cons r rs ih =>
    intro data
    cases data with
    | nil =>
      simp only [cellReqsRows, List.map_nil]
      exact List.nil_sublist _
    | cons rd rds =>
      simp only [cellReqsRows, List.map_append, List.foldr_cons]
      exact List.Sublist.append (cellReqsCells_sublist _ _) (ih rds)

/-- C4: if the fetched snapshot lists the table's content-bearing cells in
(strictly) ascending start-offset order, then the batch of cell-content
insert operations `insert_tables` sends — one per non-empty cell, at that
cell's snapshot start offset, reversed before submission — is in strictly
descending start-offset order. -/
theorem table_content_descending (t : TableSnap) (data : List (List Chars))
    (h : (snapStarts t).Pairwise (· < ·)) :
    (((cellRequests t data).reverse).map Prod.fst).Pairwise (· > ·) := by
  have hsub : ((cellRequests t data).map Prod.fst).Sublist (snapStarts t) :=
    cellReqsRows_sublist t.tableRows data
  have hasc : ((cellRequests t data).map Prod.fst).Pairwise (· < ·) :=
    List.Pairwise.sublist hsub h
  rw [List.map_reverse, List.pairwise_reverse]
  exact hasc

/-- C4 witness: a two-cell snapshot with ascending offsets 5 and 10 yields
reversed content ops with strictly descending offsets. -/
theorem table_content_descending_witness :
    (snapStarts (TableSnap.mk [RowSnap.mk
        [CellSnap.mk [SElem.mk 5 6], CellSnap.mk [SElem.mk 10 11]]])).Pairwise (· < ·) ∧
    (((cellRequests (TableSnap.mk [RowSnap.mk
        [CellSnap.mk [SElem.mk 5 6], CellSnap.mk [SElem.mk 10 11]]])
        [["A".data, "B".data]]).reverse).map Prod.fst).Pairwise (· > ·) :=
  ⟨by decide, table_content_descending _ _ (by decide)⟩

/-- C5: if one pending table's materialization fails because no table
element is found in the snapshot after its structural insert, that table is
abandoned (warning, `continue`) and every other pending table of the batch
is still processed exactly as it would have been: one failure never aborts
the rest. -/
theorem table_failure_isolated
    (pre post : List (List (List Chars) × Body × Body))
    (tdata : List (List Chars)) (s1 s2 : Body)
    (hstruct : structuralInsert tdata ≠ none)
    (hfail : findLastTable s1 = none) :
    insertTables (pre ++ (tdata, s1, s2) :: post) =
      insertTables pre ++ TableOutcome.abandoned :: insertTables post := by
  unfold insertTables
  rw [List.map_append, List.map_cons]
  have hone : processPendingTable tdata s1 s2 = TableOutcome.abandoned := by
    unfold processPendingTable
    rcases hs : structuralInsert tdata with _ | p
    · exact absurd hs hstruct
    · simp [hfail]
  rw [hone]

/-- C5 witness: a batch whose first table finds no table element in its
snapshot is abandoned while the following table is still processed. -/
theorem table_failure_isolated_witness :
    structuralInsert [["x".data]] ≠ none ∧
    findLastTable [none] = none ∧
    insertTables [([["x".data]], ([none] : Body), ([] : Body)),
        ([["a".data]],
         ([some (TableSnap.mk [RowSnap.mk [CellSnap.mk [SElem.mk 5 7]]])] : Body),
         ([] : Body))] =
      TableOutcome.abandoned ::
        insertTables [([["a".data]],
          ([some (TableSnap.mk [RowSnap.mk [CellSnap.mk [SElem.mk 5 7]]])] : Body),
          ([] : Body))] :=
  ⟨by decide, by decide,
   table_failure_isolated [] _ [["x".data]] [none] [] (by decide) (by decide)⟩

theorem maxRowLen_ge :
    ∀ (data : List (List Chars)) (r : List Chars), r ∈ data →
      r.length ≤ maxRowLen data := by
  intro data
  induction data with
  | nil => intro r hr; cases hr
  | cons a as ih =>
    intro r hr
    rcases List.mem_cons.1 hr with rfl | hmem
    · exact le_max_left _ _
    · exact le_trans (ih r hmem) (le_max_right _ _)

theorem maxRowLen_eq_zero :
    ∀ (data : List (List Chars)), (∀ r ∈ data, r = []) → maxRowLen data = 0 := by
  intro data
  induction data with
  | nil => intro _; rfl
  | cons a as ih =>
    intro h
    have ha : a = [] := h a (List.mem_cons_self _ _)
    have has := ih fun r hr => h r (List.mem_cons_of_mem _ hr)
    simp [maxRowLen] at has ⊢
    exact ⟨by simp [ha], has⟩

/-- C9: for a pending table with at least one non-empty row, the structural
insert requests exactly `(number of rows, maximum row length)` — the column
count covers every row, not just the header — while a table all of whose
rows are empty is skipped with no structural insert at all. -/
theorem structural_insert_dims (data : List (List Chars)) :
    ((∃ r ∈ data, r ≠ []) →
      structuralInsert data = some (data.length, maxRowLen data) ∧
      ∀ r ∈ data, r.length ≤ maxRowLen data) ∧
    ((∀ r ∈ data, r = []) → structuralInsert data = none) := by
  constructor
  · rintro ⟨r, hr, hne⟩
    have hpos : 0 < r.length := List.length_pos.2 hne
    have hmax : 0 < maxRowLen data := lt_of_lt_of_le hpos (maxRowLen_ge data r hr)
    have hlen : data.length ≠ 0 := by
      intro h0
      rw [List.length_eq_zero] at h0
      subst h0
      cases hr
    refine ⟨?_, fun r' hr' => maxRowLen_ge data r' hr'⟩
    unfold structuralInsert
    rw [if_neg]
    push_neg
    exact ⟨hlen, Nat.pos_iff_ne_zero.1 hmax⟩
  · intro hall
    unfold structuralInsert
    rw [if_pos]
    right
    exact maxRowLen_eq_zero data hall

/-- C9 witness: `[[a], []]` gets a 2×1 structural insert (the max is over
all rows), while `[[], []]` is skipped. -/
theorem structural_insert_dims_witness :
    ((∃ r ∈ ([["a".data], []] : List (List Chars)), r ≠ []) ∧
      structuralInsert [["a".data], []] = some (2, 1) ∧
      ∀ r ∈ ([["a".data], []] : List (List Chars)),
        r.length ≤ maxRowLen [["a".data], []]) ∧
    ((∀ r ∈ ([[], []] : List (List Chars)), r = []) ∧
      structuralInsert ([[], []] : List (List Chars)) = none) := by
  have h1 := (structural_insert_dims [["a".data], []]).1 (by decide)
  have h2 := (structural_insert_dims ([[], []] : List (List Chars))).2 (by decide)
  exact ⟨⟨by decide, h1.1, h1.2⟩, by decide, h2⟩

theorem insertedLen_append :
    ∀ (a b : List Request), insertedLen (a ++ b) = insertedLen a + insertedLen b := by
  intro a
  induction a with
  | nil => intro b; simp [insertedLen]
  | cons r rs ih =>
    intro b
    cases r <;> simp [insertedLen, ih] <;> omega

theorem insertedLen_spanRequests (s : Nat) :
    ∀ spans, insertedLen (spanRequests s spans) = 0 := by
  intro spans
  induction spans with
  | nil => rfl
  | cons sp rest ih => simpa [spanRequests, insertedLen] using ih

theorem cursorInv_addText (st : ConvState) (t : Chars) (h : CursorInv st) :
    CursorInv (addText st t).1 := by
  simp only [CursorInv, addText, insertedLen_append, insertedLen] at *
  omega

theorem cursorInv_addHeading (st : ConvState) (t : Chars) (sty : String)
    (h : CursorInv st) : CursorInv (addHeading st t sty) := by
  simp only [CursorInv, addHeading, addText, insertedLen_append, insertedLen] at *
  omega

theorem cursorInv_addParagraph (st : ConvState) (t : Chars) (h : CursorInv st) :
    CursorInv (addParagraph st t) := by
  simp only [CursorInv, addParagraph, addText, insertedLen_append, insertedLen,
    insertedLen_spanRequests] at *
  omega

theorem cursorInv_addBullet (st : ConvState) (t : Chars) (n : Nat) (h : CursorInv st) :
    CursorInv (addBullet st t n) := by
  by_cases hn : n > 0 <;>
    simp only [CursorInv, addBullet, addText, hn, if_true, if_false,
      insertedLen_append, insertedLen, insertedLen_spanRequests] at * <;>
    omega

theorem cursorInv_addNumbered (st : ConvState) (t : Chars) (n : Nat) (h : CursorInv st) :
    CursorInv (addNumbered st t n) := by
  by_cases hn : n > 0 <;>
    simp only [CursorInv, addNumbered, addText, hn, if_true, if_false,
      insertedLen_append, insertedLen, insertedLen_spanRequests] at * <;>
    omega

theorem cursorInv_addCodeBlock (st : ConvState) (ls : List Chars) (h : CursorInv st) :
    CursorInv (addCodeBlock st ls) := by
  simp only [CursorInv, addCodeBlock, addText, insertedLen_append, insertedLen] at *
  omega

theorem cursorInv_addTable (st : ConvState) (rows : List (List Chars)) (h : CursorInv st) :
    CursorInv (addTable st rows) := by
  unfold addTable
  cases hr : rows.isEmpty
  · rw [if_neg (by simp [hr])]
    simp only [CursorInv, addText, insertedLen_append, insertedLen] at *
    omega
  · rw [if_pos (by simp [hr])]
    exact h

theorem cursorInv_addHorizontalRule (st : ConvState) (h : CursorInv st) :
    CursorInv (addHorizontalRule st) := by
  simp only [CursorInv, addHorizontalRule, addText, insertedLen_append, insertedLen] at *
  omega

theorem cursorInv_processLine (st : ConvState) (line : Chars) (h : CursorInv st) :
    CursorInv (processLine st line) := by
  unfold processLine
  split
  · exact cursorInv_addHeading _ _ _ h
  split
  · exact cursorInv_addHeading _ _ _ h
  split
  · exact cursorInv_addHeading _ _ _ h
  split
  · exact cursorInv_addHeading _ _ _ h
  split
  · exact cursorInv_addHorizontalRule _ h
  split
  · split
    · exact cursorInv_addBullet _ _ _ h
    · exact h
  split
  · split
    · exact cursorInv_addNumbered _ _ _ h
    · exact h
  split
  · exact h
  · exact cursorInv_addParagraph _ _ h

theorem cursorInv_convertLines :
    ∀ (lines : List Chars) (icb : Bool) (cl : List Chars) (it : Bool)
      (tr : List (List Chars)) (st : ConvState), CursorInv st →
      CursorInv (convertLines lines icb cl it tr st) := by
  intro lines
  induction lines with
  | nil =>
    intro icb cl it tr st h
    simp only [convertLines]
    split
    · exact cursorInv_addTable _ _ h
    · exact h
  | cons line rest ih =>
    intro icb cl it tr st h
    simp only [convertLines]
    split
    · split
      · exact ih _ _ _ _ _ (cursorInv_addCodeBlock _ _ h)
      · exact ih _ _ _ _ _ h
    split
    · exact ih _ _ _ _ _ h
    split
    · split
      · exact ih _ _ _ _ _ h
      split
      · exact ih _ _ _ _ _ h
      · exact ih _ _ _ _ _ h
    split
    · exact ih _ _ _ _ _ (cursorInv_processLine _ _ (cursorInv_addTable _ _ h))
    · exact ih _ _ _ _ _ (cursorInv_processLine _ _ h)

/-- C1: `convert` resets the cursor to 1, and on return the cursor equals
1 plus the sum of the lengths of the text fields of all `insertText`
requests generated during the call; moreover `_add_text` is the request
that advances the cursor, by exactly the length of its inserted text, while
appending exactly one `insertText` at the old cursor. -/
theorem convert_cursor_invariant :
    (∀ (st : ConvState) (markdown : Chars),
      (convert st markdown).index = 1 + insertedLen (convert st markdown).requests) ∧
    (∀ (st : ConvState) (text : Chars),
      ((addText st text).1).index = st.index + text.length ∧
      ((addText st text).1).requests =
        st.requests ++ [Request.insertText st.index text]) := by
  constructor
  · intro st markdown
    exact cursorInv_convertLines (splitOnChar '\n' markdown) false [] false []
      { st with index := 1, requests := [] } (by simp [CursorInv, insertedLen])
  · intro st text
    exact ⟨rfl, rfl⟩

theorem pend_addText (st : ConvState) (p : List (List (List Chars))) (t : Chars) :
    (addText { st with pendingTables := p ++ st.pendingTables } t).1 =
      { (addText st t).1 with pendingTables := p ++ (addText st t).1.pendingTables } := by
  simp [addText]

theorem pend_addHeading (st : ConvState) (p : List (List (List Chars)))
    (t : Chars) (sty : String) :
    addHeading { st with pendingTables := p ++ st.pendingTables } t sty =
      { addHeading st t sty with
          pendingTables := p ++ (addHeading st t sty).pendingTables } := by
  simp [addHeading, addText]

theorem pend_addParagraph (st : ConvState) (p : List (List (List Chars))) (t : Chars) :
    addParagraph { st with pendingTables := p ++ st.pendingTables } t =
      { addParagraph st t with
          pendingTables := p ++ (addParagraph st t).pendingTables } := by
  simp [addParagraph, addText]

theorem pend_addBullet (st : ConvState) (p : List (List (List Chars)))
    (t : Chars) (n : Nat) :
    addBullet { st with pendingTables := p ++ st.pendingTables } t n =
      { addBullet st t n with
          pendingTables := p ++ (addBullet st t n).pendingTables } := by
  simp [addBullet, addText]

theorem pend_addNumbered (st : ConvState) (p : List (List (List Chars)))
    (t : Chars) (n : Nat) :
    addNumbered { st with pendingTables := p ++ st.pendingTables } t n =
      { addNumbered st t n with
          pendingTables := p ++ (addNumbered st t n).pendingTables } := by
  simp [addNumbered, addText]

theorem pend_addCodeBlock (st : ConvState) (p : List (List (List Chars)))
    (ls : List Chars) :
    addCodeBlock { st with pendingTables := p ++ st.pendingTables } ls =
      { addCodeBlock st ls with
          pendingTables := p ++ (addCodeBlock st ls).pendingTables } := by
  simp [addCodeBlock, addText]

theorem pend_addHorizontalRule (st : ConvState) (p : List (List (List Chars))) :
    addHorizontalRule { st with pendingTables := p ++ st.pendingTables } =
      { addHorizontalRule st with
          pendingTables := p ++ (addHorizontalRule st).pendingTables } := by
  simp [addHorizontalRule, addText]

theorem pend_addTable (st : ConvState) (p : List (List (List Chars)))
    (rows : List (List Chars)) :
    addTable { st with pendingTables := p ++ st.pendingTables } rows =
      { addTable st rows with
          pendingTables := p ++ (addTable st rows).pendingTables } := by
  unfold addTable
  cases hr : rows.isEmpty
  · rw [if_neg (by simp [hr]), if_neg (by simp [hr])]
    simp [addText]
  · rw [if_pos (by simp [hr]), if_pos (by simp [hr])]

theorem pend_processLine (st : ConvState) (p : List (List (List Chars))) (line : Chars) :
    processLine { st with pendingTables := p ++ st.pendingTables } line =
      { processLine st line with
          pendingTables := p ++ (processLine st line).pendingTables } := by
  unfold processLine
  split_ifs
  · exact pend_addHeading _ _ _ _
  · exact pend_addHeading _ _ _ _
  · exact pend_addHeading _ _ _ _
  · exact pend_addHeading _ _ _ _
  · exact pend_addHorizontalRule _ _
  · rcases hbm : bulletMatch line with _ | g
    · simp [hbm]
    · simp only [hbm]
      exact pend_addBullet _ _ _ _
  · rcases hnm : numberedMatch line with _ | g
    · simp [hnm]
    · simp only [hnm]
      exact pend_addNumbered _ _ _ _
  · rfl
  · exact pend_addParagraph _ _ _

theorem pend_convertLines :
    ∀ (lines : List Chars) (icb : Bool) (cl : List Chars) (it : Bool)
      (tr : List (List Chars)) (st : ConvState) (p : List (List (List Chars))),
      convertLines lines icb cl it tr { st with pendingTables := p ++ st.pendingTables } =
        { convertLines lines icb cl it tr st with
            pendingTables := p ++ (convertLines lines icb cl it tr st).pendingTables } := by
  intro lines
  induction lines with
  | nil =>
    intro icb cl it tr st p
    simp only [convertLines]
    split
    · exact pend_addTable _ _ _
    · rfl
  | cons line rest ih =>
    intro icb cl it tr st p
    simp only [convertLines]
    split
    · split
      · rw [pend_addCodeBlock]
        exact ih _ _ _ _ _ _
      · exact ih _ _ _ _ _ _
    split
    · exact ih _ _ _ _ _ _
    split
    · split
      · exact ih _ _ _ _ _ _
      split
      · exact ih _ _ _ _ _ _
      · exact ih _ _ _ _ _ _
    split
    · rw [pend_addTable, pend_processLine]
      exact ih _ _ _ _ _ _
    · rw [pend_processLine]
      exact ih _ _ _ _ _ _

theorem convert_pending_accum (st : ConvState) (md : Chars) :
    (convert st md).pendingTables =
      st.pendingTables ++ (convert initState md).pendingTables := by
  unfold convert
  have e1 : ({ st with index := 1, requests := [] } : ConvState) =
      { ({ initState with index := 1, requests := [] } : ConvState) with
          pendingTables :=
            st.pendingTables ++
              ({ initState with index := 1, requests := [] } : ConvState).pendingTables } := by
    simp [initState]
  rw [e1, pend_convertLines]

/-- C10: `convert` resets the cursor and the request list but never resets
`pending_tables`; after a second `convert` call on the same converter
instance, `get_pending_tables` returns the tables registered by the first
call followed by the second call's tables — pending tables accumulate
across conversions. -/
theorem pending_tables_accumulate (md1 md2 : Chars) :
    getPendingTables (convert (convert initState md1) md2) =
      getPendingTables (convert initState md1) ++
        getPendingTables (convert initState md2) := by
  simp only [getPendingTables]
  exact convert_pending_accum _ _


theorem sepChar_ne_pipe {c : Char} (h : isSepChar c = true) : c ≠ '|' := by
  rintro rfl
  exact absurd h (by decide)

theorem sepScan_core :
    ∀ (t : Chars),
      ((t.dropWhile isSepChar).head? = some '|') ↔
        ((∀ c ∈ t.takeWhile (fun c => c != '|'), isSepChar c = true) ∧ '|' ∈ t) := by
  intro t
  induction t with
  | nil => simp
  | cons c t' ih =>
    by_cases hp : c = '|'
    · subst hp
      have hs : isSepChar '|' = false := by decide
      simp [List.dropWhile_cons, List.takeWhile_cons, hs]
    · cases hs : isSepChar c
      · simp [List.dropWhile_cons, List.takeWhile_cons, hs, hp]
      · have hne : (c != '|') = true := by simp [hp]
        have hp' : ¬ ('|' = c) := fun h => hp h.symm
        simp [List.dropWhile_cons, List.takeWhile_cons, hs, hne, hp, hp', ih]

theorem sepRowCond_iff (t : Chars) :
    sepRowCond ('|' :: t) = true ↔
      (t.takeWhile (fun c => c != '|') ≠ [] ∧
       (∀ c ∈ t.takeWhile (fun c => c != '|'), isSepChar c = true) ∧ '|' ∈ t) := by
  cases t with
  | nil => simp [sepRowCond]
  | cons c t' =>
    by_cases hp : c = '|'
    · subst hp
      have hs : isSepChar '|' = false := by decide
      simp [sepRowCond, List.takeWhile_cons, hs]
    · cases hs : isSepChar c
      · simp [sepRowCond, List.takeWhile_cons, List.dropWhile_cons, hs, hp]
      · have hne : (c != '|') = true := by simp [hp]
        have hp' : ¬ ('|' = c) := fun h => hp h.symm
        simp [sepRowCond, List.takeWhile_cons, List.dropWhile_cons, hs, hne, hp, hp',
          sepScan_core t']

theorem isPrefixOf_false_of_head {a b : Char} (t l : Chars) (hab : a ≠ b) :
    (a :: t).isPrefixOf (b :: l) = false := by
  simp [List.isPrefixOf, hab]

theorem fenceCond_false_of_pipeCond (line : Chars) (h : pipeCond line = true) :
    fenceCond line = false := by
  unfold pipeCond at h
  rw [Bool.and_eq_true] at h
  obtain ⟨h1, h2⟩ := h
  have h2' : (pyStrip line).head? = some '|' := by simpa using h2
  unfold fenceCond
  cases hps : pyStrip line with
  | nil => simp [hps] at h2'
  | cons a s =>
    rw [hps] at h2'
    simp only [List.head?_cons, Option.some.injEq] at h2'
    subst h2'
    exact isPrefixOf_false_of_head _ _ (by decide)

/-- C7 (amended): a pipe-leading line outside code mode is skipped as a
table separator row if and only if the first pipe-delimited cell of the
stripped line — the characters between the first two pipes — is non-empty
and consists solely of dash, colon and whitespace characters (the regex
anchors only a prefix, so later cells are never examined); a pipe-leading
line that is not skipped has its trimmed pipe-delimited fields appended as
one row of the current table buffer whenever that field list is
non-empty. -/
theorem pipe_separator_amended
    (line : Chars) (rest : List Chars) (cl : List Chars) (inTable : Bool)
    (tableRows : List (List Chars)) (st : ConvState)
    (hp : pipeCond line = true) :
    (∀ t, pyStrip line = '|' :: t →
      (sepRowCond (pyStrip line) = true ↔
        (t.takeWhile (fun c => c != '|') ≠ [] ∧
         (∀ c ∈ t.takeWhile (fun c => c != '|'), isSepChar c = true) ∧ '|' ∈ t))) ∧
    convertLines (line :: rest) false cl inTable tableRows st =
      (if sepRowCond (pyStrip line) = true then
        convertLines rest false cl inTable tableRows st
      else if (parseCells line).isEmpty then
        convertLines rest false cl inTable tableRows st
      else
        convertLines rest false cl true
          ((if inTable then tableRows else []) ++ [parseCells line]) st) := by
  constructor
  · intro t ht
    rw [ht]
    exact sepRowCond_iff t
  · have hf := fenceCond_false_of_pipeCond line hp
    simp only [convertLines, hf, hp, Bool.false_eq_true, if_false, if_true]

/-- C7 witness: the line `|-|A|` is pipe-leading, its stripped form starts
with a pipe whose first cell is `-`, and the loop step on it skips the line
(it is a separator row by the amended rule). -/
theorem pipe_separator_amended_witness :
    pipeCond ("|-|A|".data) = true ∧
    convertLines ["|-|A|".data] false [] false [] initState =
      (if sepRowCond (pyStrip ("|-|A|".data)) = true then
        convertLines [] false [] false [] initState
      else if (parseCells ("|-|A|".data)).isEmpty then
        convertLines [] false [] false [] initState
      else
        convertLines [] false [] true
          ((if false then ([] : List (List Chars)) else []) ++
            [parseCells ("|-|A|".data)]) initState) :=
  ⟨by decide,
   (pipe_separator_amended ("|-|A|".data) [] [] false [] initState (by decide)).2⟩

theorem isPySpace_cases {c : Char} (h : isPySpace c = true) :
    c = ' ' ∨ c = '\t' ∨ c = '\n' ∨ c = '\r' ∨ c = '\x0b' ∨ c = '\x0c' := by
  have h2 := h
  simp only [isPySpace, Bool.or_eq_true, beq_iff_eq] at h2
  tauto

theorem digit_not_pySpace {c : Char} (h : c.isDigit = true) : isPySpace c = false := by
  cases hs : isPySpace c
  · rfl
  · rcases isPySpace_cases hs with rfl | rfl | rfl | rfl | rfl | rfl <;>
      exact absurd h (by decide)

theorem splitOnChar_single (sep : Char) :
    ∀ (l : Chars), (∀ c ∈ l, c ≠ sep) → splitOnChar sep l = [l] := by
  intro l
  induction l with
  | nil => intro _; rfl
  | cons c rest ih =>
    intro h
    have hrest := ih fun c hc => h c (List.mem_cons_of_mem _ hc)
    have hc : c ≠ sep := h c (List.mem_cons_self _ _)
    simp [splitOnChar, hrest, hc]

theorem dropWhile_append_of (p : Char → Bool) :
    ∀ (ws x : Chars), (∀ c ∈ ws, p c = true) →
      (∀ c, x.head? = some c → p c = false) →
      (ws ++ x).dropWhile p = x ∧ (ws ++ x).takeWhile p = ws := by
  intro ws
  induction ws with
  | nil =>
    intro x h1 h2
    constructor
    · cases x with
      | nil => rfl
      | cons a s => simp [List.dropWhile_cons, h2 a rfl]
    · cases x with
      | nil => rfl
      | cons a s => simp [List.takeWhile_cons, h2 a rfl]
  | cons w ws' ih =>
    intro x h1 h2
    have hw : p w = true := h1 w (List.mem_cons_self _ _)
    have ihx := ih x (fun c hc => h1 c (List.mem_cons_of_mem _ hc)) h2
    constructor
    · simp [List.dropWhile_cons, hw, ihx.1]
    · simp [List.takeWhile_cons, hw, ihx.2]

theorem rstrip_prefix (l : Chars) : rstrip l <+: l := by
  have h : l.reverse.dropWhile isPySpace <:+ l.reverse := List.dropWhile_suffix _
  have h2 := h.reverse
  rwa [List.reverse_reverse] at h2

theorem rstrip_head (l : Chars) :
    (rstrip l).head? = none ∨ (rstrip l).head? = l.head? := by
  rcases rstrip_prefix l with ⟨t, ht⟩
  cases hr : rstrip l with
  | nil => exact Or.inl rfl
  | cons a s =>
    right
    rw [hr] at ht
    rw [← ht]
    rfl

theorem isPrefixOf_false_head (a : Char) (t : Chars) :
    ∀ (l : Chars), (∀ c, l.head? = some c → c ≠ a) → (a :: t).isPrefixOf l = false := by
  intro l h
  cases l with
  | nil => rfl
  | cons b bs =>
    have hb : b ≠ a := h b rfl
    exact isPrefixOf_false_of_head t bs fun he => hb he.symm

theorem convertLines_single (line : Chars) (st : ConvState)
    (hf : fenceCond line = false) (hp : pipeCond line = false) :
    convertLines [line] false [] false [] st = processLine st line := by
  simp [convertLines, hf, hp]

theorem numbered_line_facts (st : ConvState) (ws d tail : Chars)
    (hws : ∀ c ∈ ws, isPySpace c = true)
    (hd : d ≠ []) (hdd : ∀ c ∈ d, c.isDigit = true)
    (htail : ∃ c0, tail.head? = some c0 ∧ isPySpace c0 = true) :
    fenceCond (ws ++ d ++ '.' :: tail) = false ∧
    pipeCond (ws ++ d ++ '.' :: tail) = false ∧
    processLine st (ws ++ d ++ '.' :: tail) =
      (match groupAfterSpaces tail with
       | some g => addNumbered st g (ws.length / 2)
       | none => st) := by
  obtain ⟨c0, hc0, hc0s⟩ := htail
  obtain ⟨d0, d', rfl⟩ : ∃ d0 d', d = d0 :: d' := by
    cases d with
    | nil => exact absurd rfl hd
    | cons a b => exact ⟨a, b, rfl⟩
  have hd0 : d0.isDigit = true := hdd d0 (List.mem_cons_self _ _)
  have hd0ne : d0 ≠ '-' ∧ d0 ≠ '*' ∧ d0 ≠ '_' ∧ d0 ≠ '|' ∧ d0 ≠ '`' := by
    refine ⟨?_, ?_, ?_, ?_, ?_⟩ <;> (rintro rfl; exact absurd hd0 (by decide))
  have hxeq : ws ++ (d0 :: d') ++ '.' :: tail = ws ++ (d0 :: (d' ++ '.' :: tail)) := by
    simp
  rw [hxeq]
  have hdropx := dropWhile_append_of isPySpace ws (d0 :: (d' ++ '.' :: tail)) hws
    (by intro c hc
        have hcd : d0 = c := by simpa using hc
        subst hcd
        exact digit_not_pySpace hd0)
  have hps : pyStrip (ws ++ (d0 :: (d' ++ '.' :: tail))) =
      rstrip (d0 :: (d' ++ '.' :: tail)) := by
    unfold pyStrip lstrip
    rw [hdropx.1]
  have hstrip_head : ∀ a s, rstrip (d0 :: (d' ++ '.' :: tail)) = a :: s → a = d0 := by
    intro a s he
    rcases rstrip_head (d0 :: (d' ++ '.' :: tail)) with hh | hh
    · rw [he] at hh; cases hh
    · rw [he] at hh
      simpa using hh
  have hfence : fenceCond (ws ++ (d0 :: (d' ++ '.' :: tail))) = false := by
    unfold fenceCond
    rw [hps]
    cases hr : rstrip (d0 :: (d' ++ '.' :: tail)) with
    | nil => rfl
    | cons a s =>
      have ha := hstrip_head a s hr
      exact isPrefixOf_false_of_head _ _
        (by rw [ha]; exact fun he => hd0ne.2.2.2.2 he.symm)
  have hpipe : pipeCond (ws ++ (d0 :: (d' ++ '.' :: tail))) = false := by
    unfold pipeCond
    rw [hps]
    cases hr : rstrip (d0 :: (d' ++ '.' :: tail)) with
    | nil => simp
    | cons a s =>
      have ha := hstrip_head a s hr
      subst ha
      simp [beq_eq_false_iff_ne.2 hd0ne.2.2.2.1]
  refine ⟨hfence, hpipe, ?_⟩
  have hnohash : ∀ c, (ws ++ (d0 :: (d' ++ '.' :: tail))).head? = some c → c ≠ '#' := by
    intro c hc
    cases ws with
    | nil =>
      have hcd : d0 = c := by simpa using hc
      subst hcd
      rintro rfl
      exact absurd hd0 (by decide)
    | cons w ws' =>
      have hcw : w = c := by simpa using hc
      subst hcw
      have hw := hws w (List.mem_cons_self _ _)
      rcases isPySpace_cases hw with rfl | rfl | rfl | rfl | rfl | rfl <;> decide
  have h4 : ("#### ".data.isPrefixOf (ws ++ (d0 :: (d' ++ '.' :: tail)))) = false :=
    isPrefixOf_false_head '#' ("### ".data) _ hnohash
  have h3 : ("### ".data.isPrefixOf (ws ++ (d0 :: (d' ++ '.' :: tail)))) = false :=
    isPrefixOf_false_head '#' ("## ".data) _ hnohash
  have h2 : ("## ".data.isPrefixOf (ws ++ (d0 :: (d' ++ '.' :: tail)))) = false :=
    isPrefixOf_false_head '#' ("# ".data) _ hnohash
  have h1 : ("# ".data.isPrefixOf (ws ++ (d0 :: (d' ++ '.' :: tail)))) = false :=
    isPrefixOf_false_head '#' (" ".data) _ hnohash
  have hhr : hrCond (ws ++ (d0 :: (d' ++ '.' :: tail))) = false := by
    unfold hrCond
    rw [hps]
    simp only [Bool.or_eq_false_iff, beq_eq_false_iff_ne]
    refine ⟨⟨?_, ?_⟩, ?_⟩ <;> intro he
    · exact hd0ne.1 (hstrip_head '-' _ he).symm
    · exact hd0ne.2.1 (hstrip_head '*' _ he).symm
    · exact hd0ne.2.2.1 (hstrip_head '_' _ he).symm
  have hbul : bulletCond (ws ++ (d0 :: (d' ++ '.' :: tail))) = false := by
    unfold bulletCond
    rw [hdropx.1]
    simp [beq_eq_false_iff_ne.2 hd0ne.1, beq_eq_false_iff_ne.2 hd0ne.2.1]
  have hdig := dropWhile_append_of Char.isDigit (d0 :: d') ('.' :: tail) hdd
    (by intro c hc
        have hcd : '.' = c := by simpa using hc
        subst hcd
        decide)
  have hdig1 : (d0 :: (d' ++ '.' :: tail)).dropWhile Char.isDigit = '.' :: tail := hdig.1
  have hdig2 : (d0 :: (d' ++ '.' :: tail)).takeWhile Char.isDigit = d0 :: d' := hdig.2
  have hnum : numberedCond (ws ++ (d0 :: (d' ++ '.' :: tail))) = true := by
    simp only [numberedCond, hdropx.1, hdig1, hdig2]
    simp [headIsSpace, hc0, hc0s]
  have hnmatch : numberedMatch (ws ++ (d0 :: (d' ++ '.' :: tail))) =
      (groupAfterSpaces tail).map (fun g => (ws.length / 2, g)) := by
    simp only [numberedMatch, hdropx.1, hdropx.2, hdig1, hdig2]
    simp
  simp only [processLine, h4, h3, h2, h1, hhr, hbul, hnum, hnmatch,
    Bool.false_eq_true, if_false, if_true]
  rcases hg : groupAfterSpaces tail with _ | g <;> simp [hg]

/-- C6 (amended): a line of the form `<n>. text` (optional leading
whitespace, a written integer, a period, whitespace, then text) is parsed
as a numbered item, but the literal written number is matched and
discarded: the emitted operations are identical for any two written
ordinals, so they depend only on the indentation and the text after the
marker (the numbering preset renumbers on the host side). -/
theorem numbered_ordinal_irrelevant
    (st : ConvState) (ws d1 d2 tail : Chars)
    (hws : ∀ c ∈ ws, isPySpace c = true ∧ c ≠ '\n')
    (hd1 : d1 ≠ []) (hdd1 : ∀ c ∈ d1, c.isDigit = true)
    (hd2 : d2 ≠ []) (hdd2 : ∀ c ∈ d2, c.isDigit = true)
    (htail : ∃ c0, tail.head? = some c0 ∧ isPySpace c0 = true)
    (hnl : '\n' ∉ tail) :
    convert st (ws ++ d1 ++ '.' :: tail) = convert st (ws ++ d2 ++ '.' :: tail) := by
  have key : ∀ (d : Chars), d ≠ [] → (∀ c ∈ d, c.isDigit = true) →
      convert st (ws ++ d ++ '.' :: tail) =
        (match groupAfterSpaces tail with
         | some g => addNumbered { st with index := 1, requests := [] } g (ws.length / 2)
         | none => { st with index := 1, requests := [] }) := by
    intro d hd hdd
    have hfacts := numbered_line_facts { st with index := 1, requests := [] } ws d tail
      (fun c hc => (hws c hc).1) hd hdd htail
    have hnonl : ∀ c ∈ ws ++ d ++ '.' :: tail, c ≠ '\n' := by
      intro c hc
      rcases List.mem_append.1 hc with hc1 | hc2
      · rcases List.mem_append.1 hc1 with hw | hdm
        · exact (hws c hw).2
        · intro he; subst he; exact absurd (hdd _ hdm) (by decide)
      · rcases List.mem_cons.1 hc2 with rfl | ht
        · decide
        · intro he; subst he; exact hnl ht
    unfold convert
    rw [splitOnChar_single '\n' _ hnonl, convertLines_single _ _ hfacts.1 hfacts.2.1,
      hfacts.2.2]
  rw [key d1 hd1 hdd1, key d2 hd2 hdd2]

/-- C6 witness: the theorem applied to the concrete lines `1. a` and
`7. a` (no indentation, tail `␣a`). -/
theorem numbered_ordinal_irrelevant_witness :
    (∀ c ∈ (['1'] : Chars), c.isDigit = true) ∧
    (∀ c ∈ (['7'] : Chars), c.isDigit = true) ∧
    ('\n' ∉ (' ' :: ['a'] : Chars)) ∧
    convert initState ([] ++ ['1'] ++ '.' :: (' ' :: ['a'])) =
      convert initState ([] ++ ['7'] ++ '.' :: (' ' :: ['a'])) := by
  refine ⟨by decide, by decide, by decide, ?_⟩
  exact numbered_ordinal_irrelevant initState [] ['1'] ['7'] (' ' :: ['a'])
    (by intro c hc; cases hc) (by decide) (by decide) (by decide) (by decide)
    ⟨' ', rfl, by decide⟩ (by decide)

end DocsClient
